import Mathlib

/-!
Verification development for the LightHearted buffered signal-to-light
mapping pipeline.  The definitions below are shallow embeddings of the
Python classes and functions in `src/acquisition/fifo_buffer.py`,
`src/mapping/mapping_functions.py`, `src/mapping/lighting_array.py`,
`src/utils/utils.py` and `src/derivation/mapping_array.py`.

Machine floats are modelled by the type `EV`: a rational number or one of
the non-finite values NaN, +Inf, -Inf (the pipeline's sanitization maps
those to 0, 1, -1).  All arithmetic exercised by the theorems is exact in
binary floating point, so rational arithmetic is faithful on those inputs.
-/

/-- A float value: finite rational, NaN, +Infinity or -Infinity. -/
inductive EV where
  | fin (q : ℚ)
  | nan
  | pinf
  | ninf
deriving DecidableEq, Repr, Inhabited

/-- Elementwise embedding of `np.nan_to_num(v, nan=0, posinf=1, neginf=-1)`
applied to a single element. -/
def nanToNum (v : EV) : EV :=
  match v with
  | .fin q => .fin q
  | .nan => .fin 0
  | .pinf => .fin 1
  | .ninf => .fin (-1)

/-- Embeds `np.nan_to_num(arr, nan=0, posinf=1, neginf=-1)` on a 1-D array. -/
def sanitizeArr (l : List EV) : List EV := l.map nanToNum

/-- State of `FIFOBuffer` (src/acquisition/fifo_buffer.py): the fields set
in `__init__` — `size`, `centre_index`, `buffer`, `_version`,
`_last_transform_version`, `_last_transform_time`.  The element type is a
parameter; the pipeline instantiates it with `EV` (floats). -/
structure FIFOBuffer (α : Type) where
  size : ℕ
  centreIndex : ℕ
  buffer : List α
  version : ℤ
  lastTransformVersion : ℤ
  lastTransformTime : ℚ
deriving Repr

/-- Embeds `FIFOBuffer.__init__(size)`: empty buffer, version 0,
`centre_index = floor(size * 0.5)`, `_last_transform_version = -1`. -/
def mkFIFOBuffer (α : Type) (size : ℕ) : FIFOBuffer α :=
  ⟨size, size / 2, [], 0, -1, 0⟩

/-- Embeds `FIFOBuffer.is_full`: `len(self.buffer) >= self.size`. -/
def FIFOBuffer.isFull (st : FIFOBuffer α) : Bool :=
  st.size ≤ st.buffer.length

/-- One iteration of the loop body of `FIFOBuffer.enqueue`: if the buffer
is full drop the oldest element, then append the item; `_version += 1`. -/
def FIFOBuffer.enqueueOne (st : FIFOBuffer α) (x : α) : FIFOBuffer α :=
  let b := if st.size ≤ st.buffer.length then st.buffer.drop 1 else st.buffer
  { st with buffer := b ++ [x], version := st.version + 1 }

/-- Embeds `FIFOBuffer.enqueue(items)`: the flattened items are appended one at a
time (the scalar branch of the Python code is the singleton-list case). -/
def FIFOBuffer.enqueue (st : FIFOBuffer α) (items : List α) : FIFOBuffer α :=
  items.foldl FIFOBuffer.enqueueOne st

/-- Embeds `FIFOBuffer.get_buffer`, as a method call returning the contents and
(literally, since the method body assigns nothing) the unchanged object. -/
def FIFOBuffer.getBufferS (st : FIFOBuffer α) : List α × FIFOBuffer α :=
  (st.buffer, st)

/-- Embeds `FIFOBuffer.clear_buffer`: empties the contents, bumps `_version`,
resets `_last_transform_version` to -1 and `_last_transform_time` to 0. -/
def FIFOBuffer.clearBuffer (st : FIFOBuffer α) : FIFOBuffer α :=
  { st with buffer := [], version := st.version + 1,
            lastTransformVersion := -1, lastTransformTime := 0 }

/-- Embeds `FIFOBuffer.set_buffer(new_buffer, resize_buffer)`: clear, optionally
resize to `len(new_buffer)`, enqueue all values, recompute `centre_index`,
and bump `_version` once more.  (The `size < 0` check is unreachable with
a natural-number size, and the inputs here are already 1-D.) -/
def FIFOBuffer.setBuffer (st : FIFOBuffer α) (new : List α) (resize : Bool) :
    FIFOBuffer α :=
  let st1 := st.clearBuffer
  let st2 := if resize then { st1 with size := new.length } else st1
  let st3 := st2.enqueue new
  { st3 with centreIndex := st3.size / 2, version := st3.version + 1 }

/-- Embeds `FIFOBuffer.transform(functions, ...)` for array-valued function
chains: sanitize the buffer contents, apply the functions in order, and
sanitize the final array result.  Each Python function together with its
(already bound) positional and keyword arguments is embedded as one
`List EV → List EV`; the symbolic-statistic substitution machinery is the
identity when no symbolic tokens are supplied, which is the case in every
claim considered here. -/
def FIFOBuffer.transform (st : FIFOBuffer EV) (fns : List (List EV → List EV)) :
    List EV :=
  sanitizeArr (fns.foldl (fun vals f => f vals) (sanitizeArr st.buffer))

/-- Embeds `FIFOBuffer.transform` as a method call: the body assigns no attribute
of `self`, so the state component is the unchanged object. -/
def FIFOBuffer.transformS (st : FIFOBuffer EV)
    (fns : List (List EV → List EV)) : List EV × FIFOBuffer EV :=
  (st.transform fns, st)

/-- Modelled from the spec sentence the claim quotes ("Before the first
function and after every function that returns an array, values are
sanitized"): a chain that sanitizes the input and then re-sanitizes after
every function.  Used only to compare the spec's wording against the code's
`FIFOBuffer.transform`. -/
def transformEverySanitized (fns : List (List EV → List EV))
    (vals : List EV) : List EV :=
  fns.foldl (fun v f => sanitizeArr (f v)) (sanitizeArr vals)

/-- The "time" mode gate shared by `FIFOBuffer.transform_tick` and
`MappingArray.update_array_tick`:
if `now - last >= interval` then `last += interval`, and if
`now - last > interval` still holds afterwards, `last = now`; returns
whether the gate fired together with the new `last` value. -/
def timeGate (interval now last : ℚ) : Bool × ℚ :=
  if interval ≤ now - last then
    let l1 := last + interval
    let l2 := if interval < now - l1 then now else l1
    (true, l2)
  else
    (false, last)

/-- Embeds `FIFOBuffer.transform_tick(..., mode="time", interval)`: runs the
transform when the time gate fires, returning the result (else `None`)
and the updated buffer object. -/
def FIFOBuffer.transformTickTime (st : FIFOBuffer EV)
    (fns : List (List EV → List EV)) (interval now : ℚ) :
    Option (List EV) × FIFOBuffer EV :=
  let g := timeGate interval now st.lastTransformTime
  if g.1 then
    (some (st.transform fns), { st with lastTransformTime := g.2 })
  else
    (none, st)

/-- Embeds `FIFOBuffer.transform_tick(..., mode="update")`: runs the transform
only when `_version` differs from `_last_transform_version`, recording the
version it served. -/
def FIFOBuffer.transformTickUpdate (st : FIFOBuffer EV)
    (fns : List (List EV → List EV)) :
    Option (List EV) × FIFOBuffer EV :=
  if st.version ≠ st.lastTransformVersion then
    (some (st.transform fns), { st with lastTransformVersion := st.version })
  else
    (none, st)

/-- Embeds `find_nearest(query, reference)` (src/utils/utils.py): the signed
distances are `query - r` for each element `r` of the reference array, and
the result is the first index attaining the minimal absolute distance
together with the signed distance there (`np.argmin` returns the first
minimiser).  The Python function raises on an empty reference; callers in
scope pre-filter empties, modelled here by `none`. -/
def findNearest (q : ℚ) (ref : List ℚ) : Option (ℕ × ℚ) :=
  match ref.map (fun r => q - r) with
  | [] => none
  | d :: ds =>
      some ((List.enum (d :: ds)).foldl
        (fun best p => if |p.2| < |best.2| then p else best) (0, d))

/-- State of the `CrossesIndex` trigger
(src/mapping/mapping_functions.py): the reference index and the distance
seen on the previous poll (`None` before the first observation). -/
structure CrossesIndex where
  index : ℕ
  previousDist : Option ℚ
deriving DecidableEq, Repr

/-- An argument accepted by `CrossesIndex.__call__`: either a `FIFOBuffer`
or a plain array. -/
inductive BufArg where
  | fifo (b : FIFOBuffer ℚ)
  | arr (l : List ℚ)

/-- The numeric contents of a `BufArg`. -/
def BufArg.values : BufArg → List ℚ
  | .fifo b => b.buffer
  | .arr l => l

/-- The index selected at the top of `CrossesIndex.__call__`: with
`auto_index`, a `FIFOBuffer` reference supplies its `centre_index`,
otherwise an array query supplies `len(query) // 2`; else the stored
index is kept. -/
def CrossesIndex.effectiveIndex (st : CrossesIndex) (reference query : BufArg)
    (autoIndex : Bool) : ℕ :=
  if autoIndex then
    match reference with
    | .fifo b => b.centreIndex
    | .arr _ =>
        match query with
        | .arr l => l.length / 2
        | .fifo _ => st.index
  else st.index

/-- Embeds `CrossesIndex.__call__(reference, query, auto_index)`: updates the
index, returns not-triggered if either argument is currently empty, else
takes the signed nearest distance `dist` from the index to the query; when
`dist >= 0` it fires iff a previous distance exists, is `<= 0` and differs
from `dist`; the previous distance is then set to `dist` in either branch. -/
def CrossesIndex.call (st : CrossesIndex) (reference query : BufArg)
    (autoIndex : Bool) : Bool × CrossesIndex :=
  let idx := st.effectiveIndex reference query autoIndex
  let st1 : CrossesIndex := { st with index := idx }
  if reference.values = [] ∨ query.values = [] then
    (false, st1)
  else
    match findNearest (idx : ℚ) query.values with
    | none => (false, st1)
    | some (_, dist) =>
        if 0 ≤ dist then
          let trig :=
            match st.previousDist with
            | some p => if p ≤ 0 ∧ dist ≠ p then true else false
            | none => false
          (trig, { st1 with previousDist := some dist })
        else
          (false, { st1 with previousDist := some dist })

/-- The inner fill loop shared by the interpolation segments of
`interpolate_1d`'s reflect branch: for `idx` in `range(s+1, e)` set
`out[idx] = sv + ((idx - s) / (e - s)) * (ev - sv)`. -/
def fillSegment (arr : List ℚ) (s e : ℕ) (sv ev : ℚ) : List ℚ :=
  (List.range' (s + 1) (e - (s + 1))).foldl
    (fun a idx =>
      a.set idx (sv + (((idx - s : ℕ) : ℚ) / ((e - s : ℕ) : ℚ)) * (ev - sv)))
    arr

/-- One segment of `interpolate_1d`'s wrap branch: indices from `s+1` up
to `e` going forward, wrapping past the end of the array when `e <= s`,
with the interpolation weight `j / denom` counted from 1 along the
travelled range. -/
def wrapSegment (outputSize : ℕ) (arr : List ℚ) (s e : ℕ) (sv ev : ℚ) :
    List ℚ :=
  let idxRange : List ℕ :=
    if s < e then List.range' (s + 1) (e - (s + 1))
    else List.range' (s + 1) (outputSize - (s + 1)) ++ List.range e
  let denom : ℕ := if s < e then e - s else (outputSize - s) + e
  (List.enum idxRange).foldl
    (fun a p =>
      a.set (p.2 % outputSize)
        (sv + (((p.1 + 1 : ℕ) : ℚ) / (denom : ℚ)) * (ev - sv)))
    arr

/-- The `edge_behaviour == "wrap"` branch of `interpolate_1d`: place the
input values at their indices in a zero array, then interpolate each
consecutive pair of indices (treated circularly) with `wrapSegment`. -/
def interpWrap (input : List ℚ) (outputSize : ℕ) (idxs : List ℕ) : List ℚ :=
  let n := input.length
  let placed := (List.range n).foldl
    (fun a i => a.set (idxs.getD i 0) (input.getD i 0))
    (List.replicate outputSize 0)
  (List.range n).foldl
    (fun a i =>
      wrapSegment outputSize a (idxs.getD i 0) (idxs.getD ((i + 1) % n) 0)
        (input.getD i 0) (input.getD ((i + 1) % n) 0))
    placed

/-- The `edge_behaviour == "reflect"` branch of `interpolate_1d`: the
output is extended by one virtual position on each open edge (shifting the
indices when the left edge is open), the values are placed and the
interior segments interpolated, each open edge is filled by interpolating
from the mirrored neighbouring value (`input[1]` beyond the left edge,
`input[-2]` beyond the right edge), and the virtual positions are trimmed
off again. -/
def interpReflect (input : List ℚ) (outputSize0 : ℕ) (idxs0 : List ℕ) :
    List ℚ :=
  let n := input.length
  let c1 := 0 < idxs0.headD 0
  let c2 := idxs0.getLastD 0 < outputSize0 - 1
  let outputSize :=
    if c1 ∧ c2 then outputSize0 + 2
    else if c1 then outputSize0 + 1
    else if c2 then outputSize0 + 1
    else outputSize0
  let idxs := if c1 then idxs0.map (· + 1) else idxs0
  let placed := (List.range n).foldl
    (fun a i => a.set (idxs.getD i 0) (input.getD i 0))
    (List.replicate outputSize 0)
  let interior := (List.range' 1 (n - 1)).foldl
    (fun a i =>
      fillSegment a (idxs.getD (i - 1) 0) (idxs.getD i 0)
        (input.getD (i - 1) 0) (input.getD i 0))
    placed
  let afterLeft :=
    if 0 < idxs.headD 0 then
      fillSegment interior 0 (idxs.headD 0) (input.getD 1 0) (input.getD 0 0)
    else interior
  let afterRight :=
    if idxs.getLastD 0 < outputSize - 1 then
      fillSegment afterLeft (idxs.getLastD 0) (outputSize - 1)
        (input.getLastD 0) (input.getD (n - 2) 0)
    else afterLeft
  if 0 < idxs.headD 0 ∧ idxs.getLastD 0 < outputSize - 1 then
    (afterRight.drop 1).dropLast
  else if 0 < idxs.headD 0 then
    afterRight.drop 1
  else if idxs.getLastD 0 < outputSize - 1 then
    afterRight.dropLast
  else
    afterRight

/-- Embeds `interpolate_1d(input_array, output_size, original_indices,
edge_behaviour)` (src/mapping/mapping_functions.py): validates the edge
behaviour string, `output_size >= len(input_array)` and
`len(original_indices) == len(input_array)` in that order (raising
`ValueError`, modelled as `Except.error`), then dispatches to the wrap or
reflect branch. -/
def interpolate_1d (input : List ℚ) (outputSize : ℕ) (idxs : List ℕ)
    (edge : String) : Except String (List ℚ) :=
  if edge ≠ "reflect" ∧ edge ≠ "wrap" then
    .error ("ValueError: edge_behaviour must be reflect or wrap")
  else if outputSize < input.length then
    .error ("ValueError: output_size must be greater than or equal to the size of input_array")
  else if idxs.length ≠ input.length then
    .error ("ValueError: original_indices must be the same size as input_array")
  else if edge = "wrap" then
    .ok (interpWrap input outputSize idxs)
  else
    .ok (interpReflect input outputSize idxs)

/-- A dynamic Python value as it flows through
`MappingArray.update_array`'s reduction chain: a numeric scalar (int or
float, possibly non-finite), a bool (excluded from "numeric scalar" by the
code's `not isinstance(reduced, bool)`), a numpy array of floats, or a
Python list/tuple of values.  The distinction between `nd` and `seq`
matters: the per-step output-index selection applies only to tuples and
lists, while the final length-1 unwrapping applies to all three. -/
inductive PyVal where
  | num (v : EV)
  | pybool (b : Bool)
  | nd (l : List EV)
  | seq (l : List PyVal)
deriving Repr, Inhabited

/-- The output-index selection used after each reduction function and once
more at the end of `MappingArray.update_array`: `reduced[idx]` when an
index is given and the value is a tuple or list (numpy arrays excluded by
the `isinstance(reduced, (tuple, list))` test). -/
def applyOutIdx (oi : Option ℕ) (v : PyVal) : PyVal :=
  match oi, v with
  | some i, .seq l => l.getD i (.num (.fin 0))
  | _, _ => v

/-- The reduction chain of `MappingArray.update_array`: each function
(embedded with its arguments already bound) is applied in order, followed
by its per-step output-index selection. -/
def runChain (fns : List ((PyVal → PyVal) × Option ℕ)) (v0 : PyVal) : PyVal :=
  fns.foldl (fun v p => applyOutIdx p.2 (p.1 v)) v0

/-- The length-1 unwrapping at the end of `MappingArray.update_array`:
`if isinstance(reduced, (np.ndarray, list, tuple)) and len(reduced) == 1:
reduced = reduced[0]`. -/
def unwrapSingleton (v : PyVal) : PyVal :=
  match v with
  | .nd [x] => .num x
  | .seq [x] => x
  | _ => v

/-- The tail of `MappingArray.update_array`'s per-channel body: final
output-index selection, length-1 unwrapping, and the numeric-scalar check
(`isinstance(reduced, (int, float)) and not isinstance(reduced, bool)`).
`none` models the `TypeError`. -/
def finalizeReduced (outIdx : Option ℕ) (v : PyVal) : Option EV :=
  match unwrapSingleton (applyOutIdx outIdx v) with
  | .num x => some x
  | _ => none

/-- A value of `MappingArray.buffer_dict`: a `FIFOBuffer`, a numpy array,
or a plain list (the unsupported-type `TypeError` branch has no
inhabitant here). -/
inductive BufferObj where
  | fifo (b : FIFOBuffer EV)
  | rawND (l : List EV)
  | rawList (l : List EV)
deriving Repr, Inhabited

/-- Whether a `buffer_dict` value lacks a `_version` attribute (a plain
ndarray or list rather than a `FIFOBuffer`), making
`getattr(buffer, "_version", None)` return `None`. -/
def BufferObj.isRaw : BufferObj → Bool
  | .fifo _ => false
  | .rawND _ => true
  | .rawList _ => true

/-- The per-channel body of `MappingArray.update_array`: a `FIFOBuffer`
channel is skipped (`none`) unless `is_full()`; otherwise the chain runs
on the channel's contents (`get_buffer()` gives an ndarray, a raw list
stays a list) and `some none` models the `TypeError` when the final result
is not a single numeric scalar, `some (some v)` the scalar assigned to the
channel's vector slot. -/
def chanOutcome (fns : List ((PyVal → PyVal) × Option ℕ)) (outIdx : Option ℕ) :
    BufferObj → Option (Option EV)
  | .fifo b =>
      if b.isFull then some (finalizeReduced outIdx (runChain fns (.nd b.buffer)))
      else none
  | .rawND l => some (finalizeReduced outIdx (runChain fns (.nd l)))
  | .rawList l =>
      some (finalizeReduced outIdx (runChain fns (.seq (l.map .num))))

/-- The channel loop of `MappingArray.update_array` over the channels
paired with their positions: skipped channels leave the array untouched, a
scalar result is written at the channel's position, and a non-scalar final
result aborts with the `TypeError` (leaving Python's partial in-place
updates out of scope: only the raising behaviour and the final array on
success are modelled). -/
def updateArrayGo (f : BufferObj → Option (Option EV)) :
    List (BufferObj × ℕ) → List EV → Except String (List EV)
  | [], arr => .ok arr
  | (c, p) :: rest, arr =>
      match f c with
      | none => updateArrayGo f rest arr
      | some none => .error ("TypeError: reduced value must be a single int or float")
      | some (some v) => updateArrayGo f rest (arr.set p v)

/-- State of `MappingArray` (src/derivation/mapping_array.py): the
buffers of `buffer_dict` in insertion order, their positions
(`position_dict`, by default the insertion index), the output vector
`array`, and the tick bookkeeping `_last_update_versions`,
`_last_update_time`, `updated`. -/
structure MappingArray where
  channels : List BufferObj
  positions : List ℕ
  array : List EV
  lastUpdateVersions : List ℤ
  lastUpdateTime : ℚ
  updated : Bool
deriving Repr

/-- Embeds `MappingArray.__init__(buffer_dict)`: zero vector of one slot per
channel, positions in insertion order, last-seen versions all -1. -/
def mkMappingArray (chs : List BufferObj) : MappingArray :=
  ⟨chs, List.range chs.length, List.replicate chs.length (EV.fin 0),
    List.replicate chs.length (-1), 0, false⟩

/-- Embeds `MappingArray.update_array(reduction_functions, ...)`: the resulting
vector, or the `TypeError` message. -/
def MappingArray.updateArray (st : MappingArray)
    (fns : List ((PyVal → PyVal) × Option ℕ)) (outIdx : Option ℕ) :
    Except String (List EV) :=
  updateArrayGo (chanOutcome fns outIdx) (st.channels.zip st.positions) st.array

/-- The change-detection loop at the top of
`MappingArray.update_array_tick(mode="update")`: some channel either lacks
a `_version` attribute or has a version differing from the last one seen. -/
def anyChanged (chs : List BufferObj) (lastVers : List ℤ) : Bool :=
  (chs.zip lastVers).any fun p =>
    match p.1 with
    | .fifo b => decide (b.version ≠ p.2)
    | _ => true

/-- The bookkeeping after a fired tick: `_last_update_versions[key]` is set
to the channel's current version for every channel that has one, and left
as it was otherwise. -/
def refreshVersions (chs : List BufferObj) (old : List ℤ) : List ℤ :=
  (chs.zip old).map fun p =>
    match p.1 with
    | .fifo b => b.version
    | _ => p.2

/-- Embeds `MappingArray.update_array_tick(..., mode="update")`: recompute the
array iff some channel changed (or cannot be change-tracked), refresh the
stored versions, set `updated`, and report whether an update ran. -/
def MappingArray.updateArrayTickUpdate (st : MappingArray)
    (fns : List ((PyVal → PyVal) × Option ℕ)) (outIdx : Option ℕ) :
    Except String (Bool × MappingArray) :=
  if anyChanged st.channels st.lastUpdateVersions then
    match st.updateArray fns outIdx with
    | .error m => .error m
    | .ok arr =>
        .ok (true,
          { st with array := arr,
                    lastUpdateVersions :=
                      refreshVersions st.channels st.lastUpdateVersions,
                    updated := true })
  else
    .ok (false, { st with updated := false })

/-- Embeds `MappingArray.update_array_tick(..., mode="time")`: the same time gate
as `FIFOBuffer.transform_tick`, recomputing the array and refreshing the
stored versions when it fires. -/
def MappingArray.updateArrayTickTime (st : MappingArray)
    (fns : List ((PyVal → PyVal) × Option ℕ)) (outIdx : Option ℕ)
    (interval now : ℚ) : Except String (Bool × MappingArray) :=
  let g := timeGate interval now st.lastUpdateTime
  if g.1 then
    match st.updateArray fns outIdx with
    | .error m => .error m
    | .ok arr =>
        .ok (true,
          { st with array := arr,
                    lastUpdateTime := g.2,
                    lastUpdateVersions :=
                      refreshVersions st.channels st.lastUpdateVersions,
                    updated := true })
  else
    .ok (false, { st with updated := false })

/-- State of `LightingArray` (src/mapping/lighting_array.py): the fixture
identifiers and the current and previous value array of each channel
(anchor bookkeeping is not touched by the update methods modelled here). -/
structure LightingArray where
  fixtures : List ℤ
  intensities : List ℚ
  previousIntensities : List ℚ
  red : List ℚ
  previousRed : List ℚ
  green : List ℚ
  previousGreen : List ℚ
  blue : List ℚ
  previousBlue : List ℚ
  white : List ℚ
  previousWhite : List ℚ
deriving DecidableEq, Repr

/-- Embeds `LightingArray.__init__(fixtures, ...)`: every channel array starts as
`np.zeros(len(fixtures))`. -/
def mkLightingArray (fixtures : List ℤ) : LightingArray :=
  let z := List.replicate fixtures.length (0 : ℚ)
  ⟨fixtures, z, z, z, z, z, z, z, z, z, z⟩

/-- The count `len(fixtures)`, stored as `no_leds` at construction and never changed. -/
def LightingArray.noLeds (st : LightingArray) : ℕ := st.fixtures.length

/-- Embeds `LightingArray.update_intensities(new)`: `ValueError` if the length
differs from `no_leds`, else snapshot the current values into the
previous array and overwrite. -/
def LightingArray.updateIntensities (st : LightingArray) (new : List ℚ) :
    Except String LightingArray :=
  if new.length ≠ st.noLeds then
    .error ("ValueError: length of new_intensities does not match number of LEDs")
  else
    .ok { st with previousIntensities := st.intensities, intensities := new }

/-- Embeds `LightingArray.update_red(new)`. -/
def LightingArray.updateRed (st : LightingArray) (new : List ℚ) :
    Except String LightingArray :=
  if new.length ≠ st.noLeds then
    .error ("ValueError: length of new_red does not match number of LEDs")
  else
    .ok { st with previousRed := st.red, red := new }

/-- Embeds `LightingArray.update_green(new)`. -/
def LightingArray.updateGreen (st : LightingArray) (new : List ℚ) :
    Except String LightingArray :=
  if new.length ≠ st.noLeds then
    .error ("ValueError: length of new_green does not match number of LEDs")
  else
    .ok { st with previousGreen := st.green, green := new }

/-- Embeds `LightingArray.update_blue(new)`. -/
def LightingArray.updateBlue (st : LightingArray) (new : List ℚ) :
    Except String LightingArray :=
  if new.length ≠ st.noLeds then
    .error ("ValueError: length of new_blue does not match number of LEDs")
  else
    .ok { st with previousBlue := st.blue, blue := new }

/-- Embeds `LightingArray.update_white(new)`. -/
def LightingArray.updateWhite (st : LightingArray) (new : List ℚ) :
    Except String LightingArray :=
  if new.length ≠ st.noLeds then
    .error ("ValueError: length of new_white does not match number of LEDs")
  else
    .ok { st with previousWhite := st.white, white := new }

/-- Embeds `LightingArray.update_rgb`: `update_red`, `update_green`,
`update_blue` in sequence. -/
def LightingArray.updateRGB (st : LightingArray) (r g b : List ℚ) :
    Except String LightingArray := do
  let st1 ← st.updateRed r
  let st2 ← st1.updateGreen g
  st2.updateBlue b

/-- Embeds `LightingArray.update_rgbw`: `update_rgb` then `update_white`. -/
def LightingArray.updateRGBW (st : LightingArray) (r g b w : List ℚ) :
    Except String LightingArray := do
  let st1 ← st.updateRGB r g b
  st1.updateWhite w

/-- The `LightingArray` channel-length invariant: every current and
previous channel array has exactly `len(fixtures)` elements. -/
def LAWF (st : LightingArray) : Prop :=
  st.intensities.length = st.noLeds ∧
  st.previousIntensities.length = st.noLeds ∧
  st.red.length = st.noLeds ∧ st.previousRed.length = st.noLeds ∧
  st.green.length = st.noLeds ∧ st.previousGreen.length = st.noLeds ∧
  st.blue.length = st.noLeds ∧ st.previousBlue.length = st.noLeds ∧
  st.white.length = st.noLeds ∧ st.previousWhite.length = st.noLeds

/-- A sequence of `FIFOBuffer.enqueue` calls, each passing a batch of
scalars. -/
def enqueueCalls (st : FIFOBuffer α) (calls : List (List α)) : FIFOBuffer α :=
  calls.foldl FIFOBuffer.enqueue st

/-- A chain function producing NaN regardless of its input (e.g. the
Python function `lambda v: np.full(1, np.nan)`). -/
def c2f : List EV → List EV := fun _ => [EV.nan]

/-- A chain function that distinguishes NaN from finite input (e.g. the
Python function `lambda v: np.where(np.isnan(v), 5.0, 7.0)`). -/
def c2g : List EV → List EV :=
  fun l => l.map fun x => match x with | .nan => .fin 5 | _ => .fin 7

/-- A buffer holding the single finite value 0. -/
def c2buf : FIFOBuffer EV := (mkFIFOBuffer EV 3).enqueue [.fin 0]

/-- A buffer holding NaN, +Inf, -Inf. -/
def c2bufNaN : FIFOBuffer EV :=
  (mkFIFOBuffer EV 3).enqueue [.nan, .pinf, .ninf]

/-- A fresh `CrossesIndex` trigger (no distance observed yet). -/
def c6s0 : CrossesIndex := ⟨0, none⟩

/-- A non-empty reference array for the trigger polls. -/
def c6ref : BufArg := .arr [999]

/-- A full one-slot `FIFOBuffer` holding 3. -/
def c8fifoFull : FIFOBuffer EV := (mkFIFOBuffer EV 1).enqueue [.fin 3]

/-- A two-slot `FIFOBuffer` holding only one value: not yet full. -/
def c8fifoPart : FIFOBuffer EV := (mkFIFOBuffer EV 2).enqueue [.fin 1]

/-- A `MappingArray` over one full and one warming-up buffer. -/
def c8st : MappingArray :=
  mkMappingArray [.fifo c8fifoFull, .fifo c8fifoPart]

/-- A `MappingArray` whose single channel is a plain ndarray rather than a
`FIFOBuffer`. -/
def c10st : MappingArray := mkMappingArray [.rawND [.fin 2]]

/-- C1.  The claim asserts that the reflect edge behaviour continues the
slope of the nearest interior segment, so that
`interpolate_1d([5, 15], 4, [1, 2], "reflect")` is a monotonic ramp.  The
code instead mirrors the interior values across each boundary: the result
is `[10, 5, 15, 10]`, which has 5 at index 1 and 15 at index 2 but is not
monotonic — its first step descends (10 > 5) while its second ascends
(5 < 15) — and is not the slope-continuation ramp `[-5, 5, 15, 25]`. -/
theorem C1_counterexample :
    interpolate_1d [5, 15] 4 [1, 2] "reflect" = .ok [10, 5, 15, 10] ∧
    ¬ ((10 : ℚ) ≤ 5) ∧ ¬ ((5 : ℚ) ≥ 15) ∧
    interpolate_1d [5, 15] 4 [1, 2] "reflect" ≠ .ok [-5, 5, 15, 25] := by
  have hval : interpolate_1d [5, 15] 4 [1, 2] "reflect" = .ok [10, 5, 15, 10] := by
    norm_num [interpolate_1d, interpReflect, fillSegment, List.range_succ,
      List.range', List.enum, List.set]
    exact fun h => absurd h (by decide)
  refine ⟨hval, by norm_num, by norm_num, ?_⟩
  intro h
  rw [hval] at h
  have h2 : ([10, 5, 15, 10] : List ℚ) = [-5, 5, 15, 25] := by
    injection h
  have h3 : (10 : ℚ) = -5 := by injection h2
  norm_num at h3

/-- C1 (amended).  For `interpolate_1d` with `edge_behaviour="reflect"`,
each boundary segment is filled by interpolating from the mirrored
neighbouring interior value (`input[1]` beyond the left edge, `input[-2]`
beyond the right edge) rather than by continuing the interior slope: on
input `[5, 15]` with `output_size=4` and `original_indices=[1, 2]` the
result is `[10, 5, 15, 10]`, keeping 5 at index 1 and 15 at index 2 with
both boundary entries equal to the reflected midpoint 10. -/
theorem C1_theorem :
    interpolate_1d [5, 15] 4 [1, 2] "reflect" = .ok [10, 5, 15, 10] ∧
    ([10, 5, 15, 10] : List ℚ).getD 1 0 = 5 ∧
    ([10, 5, 15, 10] : List ℚ).getD 2 0 = 15 ∧
    ([10, 5, 15, 10] : List ℚ).getD 0 0 = 15 + (1 / 2 : ℚ) * (5 - 15) ∧
    ([10, 5, 15, 10] : List ℚ).getD 3 0 = 15 + (1 / 2 : ℚ) * (5 - 15) := by
  refine ⟨?_, rfl, rfl, by norm_num, by norm_num⟩
  norm_num [interpolate_1d, interpReflect, fillSegment, List.range_succ,
    List.range', List.enum, List.set]
  exact fun h => absurd h (by decide)

/-- C2.  The claim asserts the intermediate value is re-sanitized after
every function of the chain.  In the code sanitization happens only before
the first function and once after the whole chain: with the chain
`[c2f, c2g]`, where `c2f` emits NaN and `c2g` maps NaN to 5 and everything
else to 7, the code's `transform` lets the NaN reach `c2g` and returns
`[5]`, while the sanitize-after-every-function reading of the spec
(`transformEverySanitized`) would return `[7]`. -/
theorem C2_counterexample :
    c2buf.transform [c2f, c2g] = [.fin 5] ∧
    transformEverySanitized [c2f, c2g] c2buf.buffer = [.fin 7] ∧
    c2buf.transform [c2f, c2g] ≠
      transformEverySanitized [c2f, c2g] c2buf.buffer := by
  refine ⟨rfl, rfl, by decide⟩

/-- C2 (amended).  In `FIFOBuffer.transform` the buffer contents are
sanitized (NaN → 0, +Inf → 1, -Inf → -1) before the first function of the
chain and once more after the final function's array result — but not
between functions: a one-function chain sees sanitize-before and
sanitize-after, a two-function chain passes the first function's raw
result to the second.  Consequently a buffer holding NaN, +Inf, -Inf run
through an identity chain returns `[0, 1, -1]`. -/
theorem C2_theorem :
    c2bufNaN.transform [fun v => v] = [.fin 0, .fin 1, .fin (-1)] ∧
    (∀ (f : List EV → List EV) (st : FIFOBuffer EV),
      st.transform [f] = sanitizeArr (f (sanitizeArr st.buffer))) ∧
    (∀ (f g : List EV → List EV) (st : FIFOBuffer EV),
      st.transform [f, g] = sanitizeArr (g (f (sanitizeArr st.buffer)))) := by
  exact ⟨rfl, fun f st => rfl, fun f g st => rfl⟩

/-- C7.  `interpolate_1d` with `edge_behaviour="wrap"` treats the index
sequence as circular: on `[10, 20]` with `output_size=5` and indices
`[0, 4]` it returns 10 at index 0, 20 at index 4 and the linear ramp
12.5, 15, 17.5 at indices 1, 2, 3 (the wrap segment from index 4 back to
the virtual index 5 ≡ 0 contains no interior position here); and it
raises `ValueError` when `output_size` is smaller than the number of
values, or when the number of indices differs from the number of values. -/
theorem C7_theorem :
    interpolate_1d [10, 20] 5 [0, 4] "wrap" =
      .ok [10, 25 / 2, 15, 35 / 2, 20] ∧
    (∀ (inp : List ℚ) (os : ℕ) (idxs : List ℕ), os < inp.length →
        ∃ m, interpolate_1d inp os idxs "wrap" = .error m) ∧
    (∀ (inp : List ℚ) (os : ℕ) (idxs : List ℕ),
        inp.length ≤ os → idxs.length ≠ inp.length →
        ∃ m, interpolate_1d inp os idxs "wrap" = .error m) := by
  refine ⟨?_, ?_, ?_⟩
  · norm_num [interpolate_1d, interpWrap, wrapSegment, List.range_succ,
      List.range', List.enum, List.enumFrom, List.set]
  · intro inp os idxs h
    unfold interpolate_1d
    rw [if_neg (by simp), if_pos h]
    exact ⟨_, rfl⟩
  · intro inp os idxs h1 h2
    unfold interpolate_1d
    rw [if_neg (by simp), if_neg (by omega), if_pos h2]
    exact ⟨_, rfl⟩

/-- C3.  The "time" mode gate shared by `FIFOBuffer.transform_tick` and
`MappingArray.update_array_tick` fires exactly when
`now - lastFireTime >= interval`; on a fire it advances `lastFireTime` by
exactly one interval unless the drift past the newly consumed tick exceeds
one interval (`now - lastFireTime > 2 * interval`), in which case it snaps
to `now`.  Both tick methods fire according to this gate, and with
`interval = 1000` two calls 1500 apart (at 1500 and 3000, from
`lastFireTime = 500`) both fire, the second leaving `lastFireTime` at
2500 — one interval after the first call's 1500, not at `now = 3000`. -/
theorem C3_theorem :
    (∀ interval now last : ℚ,
      (timeGate interval now last).1 = true ↔ interval ≤ now - last) ∧
    (∀ interval now last : ℚ, interval ≤ now - last →
      now - last ≤ 2 * interval →
      (timeGate interval now last).2 = last + interval) ∧
    (∀ interval now last : ℚ, interval ≤ now - last →
      2 * interval < now - last →
      (timeGate interval now last).2 = now) ∧
    (∀ (st : FIFOBuffer EV) (fns : List (List EV → List EV))
        (interval now : ℚ),
      (st.transformTickTime fns interval now).1.isSome =
        (timeGate interval now st.lastTransformTime).1) ∧
    (∀ (st : MappingArray) (fns : List ((PyVal → PyVal) × Option ℕ))
        (oi : Option ℕ) (interval now : ℚ) (r : Bool × MappingArray),
      st.updateArrayTickTime fns oi interval now = .ok r →
      r.1 = (timeGate interval now st.lastUpdateTime).1) ∧
    timeGate 1000 1500 500 = (true, 1500) ∧
    timeGate 1000 3000 1500 = (true, 2500) := by
  refine ⟨?_, ?_, ?_, ?_, ?_, ?_, ?_⟩
  · intro i now last
    by_cases h : i ≤ now - last <;> simp [timeGate, h]
  · intro i now last h1 h2
    simp only [timeGate, if_pos h1]
    rw [if_neg (by intro hc; linarith)]
  · intro i now last h1 h2
    simp only [timeGate, if_pos h1]
    rw [if_pos (by linarith)]
  · intro st fns i now
    by_cases h : (timeGate i now st.lastTransformTime).1 = true <;>
      simp [FIFOBuffer.transformTickTime, h]
  · intro st fns oi i now r h
    by_cases hg : (timeGate i now st.lastUpdateTime).1 = true
    · simp only [MappingArray.updateArrayTickTime, if_pos hg] at h
      cases hu : st.updateArray fns oi with
      | error m => rw [hu] at h; exact absurd h (by simp)
      | ok arr =>
          rw [hu] at h
          simp only [] at h
          cases h
          exact hg.symm
    · simp only [MappingArray.updateArrayTickTime, if_neg hg] at h
      cases h
      simp only []
      exact ((Bool.not_eq_true _).mp hg).symm
  · simp only [timeGate]
    norm_num
  · simp only [timeGate]
    norm_num

/-- Witness for C3 at the concrete cadence scenario: the first call at
`now = 1500` with `lastFireTime = 500` satisfies the fire condition and
drift bound, and the gate advances `lastFireTime` to exactly `500 + 1000`. -/
theorem C3_witness :
    (1000 : ℚ) ≤ 1500 - 500 ∧ (1500 : ℚ) - 500 ≤ 2 * 1000 ∧
    (timeGate 1000 1500 500).2 = 500 + 1000 :=
  ⟨by norm_num, by norm_num,
    C3_theorem.2.1 1000 1500 500 (by norm_num) (by norm_num)⟩

/-- The `enqueue` method never changes the capacity. -/
lemma enqueue_size (st : FIFOBuffer α) (items : List α) :
    (st.enqueue items).size = st.size := by
  induction items generalizing st with
  | nil => rfl
  | cons x xs ih => exact ih (st.enqueueOne x)

/-- The `enqueue` method bumps the version once per scalar appended. -/
lemma enqueue_version (st : FIFOBuffer α) (items : List α) :
    (st.enqueue items).version = st.version + items.length := by
  induction items generalizing st with
  | nil => simp [FIFOBuffer.enqueue]
  | cons x xs ih =>
      have h := ih (st.enqueueOne x)
      simp only [FIFOBuffer.enqueue, List.foldl_cons] at h ⊢
      rw [h]
      have hv : (st.enqueueOne x).version = st.version + 1 := rfl
      rw [hv, List.length_cons]
      push_cast
      ring

/-- The FIFO characterization of `enqueue`: starting from a buffer within
capacity, enqueuing a batch leaves exactly the suffix of
`old contents ++ batch` that fits the capacity. -/
lemma enqueue_buffer_drop (st : FIFOBuffer α) (h0 : 0 < st.size)
    (h : st.buffer.length ≤ st.size) (items : List α) :
    (st.enqueue items).buffer =
      (st.buffer ++ items).drop (st.buffer.length + items.length - st.size) := by
  induction items generalizing st with
  | nil =>
      simp [FIFOBuffer.enqueue, Nat.sub_eq_zero_of_le h]
  | cons x xs ih =>
      have hstep : st.enqueue (x :: xs) = (st.enqueueOne x).enqueue xs := rfl
      have hone_size : (st.enqueueOne x).size = st.size := rfl
      by_cases hc : st.size ≤ st.buffer.length
      · have hlen : st.buffer.length = st.size := le_antisymm h hc
        obtain ⟨b0, bt, hb⟩ : ∃ b0 bt, st.buffer = b0 :: bt := by
          cases hbuf : st.buffer with
          | nil =>
              exfalso
              rw [hbuf] at hlen
              simp at hlen
              omega
          | cons b0 bt => exact ⟨b0, bt, rfl⟩
        have hbt : bt.length + 1 = st.size := by
          rw [hb] at hlen
          simpa using hlen
        have hone : (st.enqueueOne x).buffer = bt ++ [x] := by
          show (if st.size ≤ st.buffer.length then st.buffer.drop 1
            else st.buffer) ++ [x] = bt ++ [x]
          rw [if_pos hc, hb]
          rfl
        have hlen' : (st.enqueueOne x).buffer.length ≤ (st.enqueueOne x).size := by
          rw [hone, hone_size, List.length_append, List.length_cons]
          simp
          omega
        have h0' : 0 < (st.enqueueOne x).size := by rw [hone_size]; exact h0
        rw [hstep, ih _ h0' hlen', hone, hone_size, hb]
        have hl1 : (bt ++ [x]).length + xs.length - st.size = xs.length := by
          rw [List.length_append]
          simp
          omega
        have hl2 : (b0 :: bt).length + (x :: xs).length - st.size =
            xs.length + 1 := by
          rw [List.length_cons, List.length_cons]
          omega
        rw [hl1, hl2]
        have hsplit : (b0 :: bt) ++ x :: xs = b0 :: (bt ++ x :: xs) := rfl
        rw [hsplit, List.drop_succ_cons]
        congr 1
        simp
      · push_neg at hc
        have hone : (st.enqueueOne x).buffer = st.buffer ++ [x] := by
          show (if st.size ≤ st.buffer.length then st.buffer.drop 1
            else st.buffer) ++ [x] = st.buffer ++ [x]
          rw [if_neg (by omega : ¬ st.size ≤ st.buffer.length)]
        have hlen' : (st.enqueueOne x).buffer.length ≤ (st.enqueueOne x).size := by
          rw [hone, hone_size, List.length_append]
          simp
          omega
        have h0' : 0 < (st.enqueueOne x).size := by rw [hone_size]; exact h0
        rw [hstep, ih _ h0' hlen', hone, hone_size]
        congr 1
        · rw [List.length_append]
          simp
          omega
        · simp

/-- A sequence of `enqueue` calls acts like one `enqueue` of the
concatenated batches. -/
lemma enqueueCalls_join (st : FIFOBuffer α) (calls : List (List α)) :
    enqueueCalls st calls = st.enqueue calls.flatten := by
  induction calls generalizing st with
  | nil => rfl
  | cons c cs ih =>
      have happ : st.enqueue (c ++ cs.flatten) = (st.enqueue c).enqueue cs.flatten :=
        List.foldl_append _ _ _ _
      simp only [enqueueCalls, List.foldl_cons, List.flatten_cons, happ]
      exact ih (st.enqueue c)

/-- C4.  For a `FIFOBuffer` of positive capacity and any sequence of
enqueue calls from a fresh buffer: the contents never exceed the capacity
(after every call, i.e. for every prefix of the call sequence), and once
more than `capacity` scalars have been enqueued in total the contents are
exactly the last `capacity` scalars in arrival order. -/
theorem C4_theorem (α : Type) (size : ℕ) (h : 0 < size)
    (calls : List (List α)) :
    (∀ pre suf : List (List α), calls = pre ++ suf →
      (enqueueCalls (mkFIFOBuffer α size) pre).buffer.length ≤ size) ∧
    (size < calls.flatten.length →
      (enqueueCalls (mkFIFOBuffer α size) calls).buffer =
        calls.flatten.drop (calls.flatten.length - size) ∧
      (enqueueCalls (mkFIFOBuffer α size) calls).buffer.length = size) := by
  have key : ∀ cs : List (List α),
      (enqueueCalls (mkFIFOBuffer α size) cs).buffer =
        cs.flatten.drop (cs.flatten.length - size) := by
    intro cs
    rw [enqueueCalls_join]
    have hk := enqueue_buffer_drop (mkFIFOBuffer α size) (by exact h)
      (by simp [mkFIFOBuffer]) cs.flatten
    simpa [mkFIFOBuffer] using hk
  refine ⟨?_, ?_⟩
  · intro pre suf _
    rw [key pre]
    rw [List.length_drop]
    omega
  · intro hlong
    refine ⟨key calls, ?_⟩
    rw [key calls]
    rw [List.length_drop]
    omega

/-- Witness for C4: capacity 2 with calls `[[1], [2, 3]]` (three scalars
in total) leaves exactly the last two scalars `[2, 3]`. -/
theorem C4_witness :
    (0 < 2) ∧
    (enqueueCalls (mkFIFOBuffer ℚ 2) [[1], [2, 3]]).buffer =
      ([[1], [2, 3]] : List (List ℚ)).flatten.drop
        (([[1], [2, 3]] : List (List ℚ)).flatten.length - 2) ∧
    (enqueueCalls (mkFIFOBuffer ℚ 2) [[1], [2, 3]]).buffer.length = 2 :=
  ⟨by decide, (C4_theorem ℚ 2 (by decide) [[1], [2, 3]]).2 (by decide)⟩

/-- The channel loop of `update_array` raises iff some channel's outcome
is the `TypeError` (skips and assignments never raise, and the loop aborts
at the first error). -/
lemma updateArrayGo_error_iff (f : BufferObj → Option (Option EV)) :
    ∀ (l : List (BufferObj × ℕ)) (arr : List EV),
    (∃ m, updateArrayGo f l arr = .error m) ↔ ∃ p ∈ l, f p.1 = some none := by
  intro l
  induction l with
  | nil => intro arr; simp [updateArrayGo]
  | cons cp rest ih =>
      intro arr
      obtain ⟨c, p⟩ := cp
      cases hfc : f c with
      | none => simp [updateArrayGo, hfc, ih]
      | some o =>
          cases o with
          | none => simp [updateArrayGo, hfc]
          | some v => simp [updateArrayGo, hfc, ih]

/-- Pairing each channel with a position taken from the consecutive range
starting at `k`, a successful channel loop leaves slots below `k`
untouched and gives slot `k + i` the outcome of channel `i`: unchanged on
a skip, the assigned scalar on an assignment. -/
lemma updateArrayGo_ok_spec (f : BufferObj → Option (Option EV)) (d : EV) :
    ∀ (chs : List BufferObj) (k : ℕ) (arr res : List EV),
    updateArrayGo f (chs.zip (List.range' k chs.length)) arr = .ok res →
    res.length = arr.length ∧
    (∀ j, j < k → res.getD j d = arr.getD j d) ∧
    (∀ i, i < chs.length → k + i < arr.length →
      (f (chs.getD i (BufferObj.rawND [])) = none →
         res.getD (k + i) d = arr.getD (k + i) d) ∧
      (∀ v, f (chs.getD i (BufferObj.rawND [])) = some (some v) →
         res.getD (k + i) d = v)) := by
  intro chs
  induction chs with
  | nil =>
      intro k arr res h
      simp [updateArrayGo] at h
      subst h
      exact ⟨rfl, fun j _ => rfl, fun i hi => absurd hi (by simp)⟩
  | cons c rest ih =>
      intro k arr res h
      have hzip : (c :: rest).zip (List.range' k (c :: rest).length) =
          (c, k) :: rest.zip (List.range' (k + 1) rest.length) := by
        rw [List.length_cons, List.range'_succ]
        rfl
      rw [hzip] at h
      cases hfc : f c with
      | none =>
          simp only [updateArrayGo, hfc] at h
          obtain ⟨hlen, hpres, hslots⟩ := ih (k + 1) arr res h
          refine ⟨hlen, fun j hj => hpres j (by omega), ?_⟩
          intro i hi hik
          cases i with
          | zero =>
              refine ⟨fun _ => hpres k (by omega), ?_⟩
              intro v hv
              have hc0 : (c :: rest).getD 0 (BufferObj.rawND []) = c := rfl
              rw [hc0] at hv
              rw [hfc] at hv
              exact absurd hv (by simp)
          | succ i2 =>
              have hi2 : i2 < rest.length := by
                rw [List.length_cons] at hi
                omega
              have hik2 : (k + 1) + i2 < arr.length := by omega
              obtain ⟨hnone, hsome⟩ := hslots i2 hi2 hik2
              have hidx : k + (i2 + 1) = (k + 1) + i2 := by omega
              have hcg : (c :: rest).getD (i2 + 1) (BufferObj.rawND []) =
                  rest.getD i2 (BufferObj.rawND []) := rfl
              rw [hcg, hidx]
              exact ⟨hnone, hsome⟩
      | some o =>
          cases o with
          | none =>
              simp only [updateArrayGo, hfc] at h
              exact absurd h (by simp)
          | some v =>
              simp only [updateArrayGo, hfc] at h
              obtain ⟨hlen, hpres, hslots⟩ := ih (k + 1) (arr.set k v) res h
              have hlen2 : res.length = arr.length := by
                rw [hlen, List.length_set]
              refine ⟨hlen2, ?_, ?_⟩
              · intro j hj
                rw [hpres j (by omega), List.getD_eq_getElem?_getD,
                  List.getD_eq_getElem?_getD,
                  List.getElem?_set_ne (by omega : k ≠ j)]
              · intro i hi hik
                cases i with
                | zero =>
                    constructor
                    · intro hnone
                      have hc0 : (c :: rest).getD 0 (BufferObj.rawND []) = c := rfl
                      rw [hc0, hfc] at hnone
                      exact absurd hnone (by simp)
                    · intro v2 hv2
                      have hc0 : (c :: rest).getD 0 (BufferObj.rawND []) = c := rfl
                      rw [hc0, hfc] at hv2
                      have hvv : v2 = v := by
                        have := Option.some.inj hv2
                        exact (Option.some.inj this).symm
                      subst hvv
                      have hgoal : res.getD k d = v2 := by
                        rw [hpres k (by omega), List.getD_eq_getElem?_getD,
                          List.getElem?_set_eq_of_lt v2
                            (by omega : k < arr.length)]
                        rfl
                      simpa using hgoal
                | succ i2 =>
                    have hi2 : i2 < rest.length := by
                      rw [List.length_cons] at hi
                      omega
                    have hik2 : (k + 1) + i2 < (arr.set k v).length := by
                      rw [List.length_set]
                      omega
                    obtain ⟨hnone, hsome⟩ := hslots i2 hi2 hik2
                    have hidx : k + (i2 + 1) = (k + 1) + i2 := by omega
                    have hcg : (c :: rest).getD (i2 + 1) (BufferObj.rawND []) =
                        rest.getD i2 (BufferObj.rawND []) := rfl
                    rw [hcg, hidx]
                    constructor
                    · intro hn
                      rw [hnone hn, List.getD_eq_getElem?_getD,
                        List.getD_eq_getElem?_getD,
                        List.getElem?_set_ne (by omega : k ≠ (k + 1) + i2)]
                    · exact hsome

/-- Membership of a type-error outcome in the zipped channel list is
membership among the channels. -/
lemma zip_outcome_mem (f : BufferObj → Option (Option EV)) :
    ∀ (chs : List BufferObj) (k : ℕ),
    ((∃ p ∈ chs.zip (List.range' k chs.length), f p.1 = some none) ↔
      ∃ c ∈ chs, f c = some none) := by
  intro chs
  induction chs with
  | nil => intro k; simp
  | cons c rest ih =>
      intro k
      have hzip : (c :: rest).zip (List.range' k (c :: rest).length) =
          (c, k) :: rest.zip (List.range' (k + 1) rest.length) := by
        rw [List.length_cons, List.range'_succ]
        rfl
      rw [hzip]
      constructor
      · rintro ⟨p, hp, hf2⟩
        rcases List.mem_cons.mp hp with hp1 | hp2
        · subst hp1
          exact ⟨c, List.mem_cons_self c rest, hf2⟩
        · obtain ⟨c2, hc2, hfc2⟩ := (ih (k + 1)).mp ⟨p, hp2, hf2⟩
          exact ⟨c2, List.mem_cons_of_mem c hc2, hfc2⟩
      · rintro ⟨c2, hc2, hfc2⟩
        rcases List.mem_cons.mp hc2 with hc21 | hc22
        · subst hc21
          exact ⟨(c2, k), List.mem_cons_self _ _, hfc2⟩
        · obtain ⟨p, hp, hf2⟩ := (ih (k + 1)).mpr ⟨c2, hc22, hfc2⟩
          exact ⟨p, List.mem_cons_of_mem _ hp, hf2⟩

/-- C5.  The `FIFOBuffer` version counter strictly increases on every
mutation: `enqueue` bumps it exactly once per scalar appended (not once
per call), `set_buffer` and `clear_buffer` strictly increase it; while
`get_buffer` and `transform` return their results with the object — its
version and contents included — unchanged. -/
theorem C5_theorem :
    (∀ (α : Type) (st : FIFOBuffer α) (items : List α),
      (st.enqueue items).version = st.version + items.length) ∧
    (∀ (α : Type) (st : FIFOBuffer α) (new : List α) (resize : Bool),
      st.version < (st.setBuffer new resize).version) ∧
    (∀ (α : Type) (st : FIFOBuffer α), st.version < st.clearBuffer.version) ∧
    (∀ (α : Type) (st : FIFOBuffer α), st.getBufferS = (st.buffer, st)) ∧
    (∀ (st : FIFOBuffer EV) (fns : List (List EV → List EV)),
      st.transformS fns = (st.transform fns, st)) := by
  refine ⟨fun α st items => enqueue_version st items, ?_, ?_, fun α st => rfl,
    fun st fns => rfl⟩
  · intro α st new resize
    have h1 : (st.setBuffer new resize).version =
        ((if resize then
            ({ st.clearBuffer with size := new.length } : FIFOBuffer α)
          else st.clearBuffer).enqueue new).version + 1 := rfl
    rw [h1, enqueue_version]
    have h2 : (if resize then
        ({ st.clearBuffer with size := new.length } : FIFOBuffer α)
      else st.clearBuffer).version = st.version + 1 := by
      cases resize <;> rfl
    rw [h2]
    omega
  · intro α st
    have h1 : st.clearBuffer.version = st.version + 1 := rfl
    rw [h1]
    omega

/-- C6.  The claim says `CrossesIndex.__call__` fires exactly once per
transition of the nearest distance from `<= 0` to `> 0`, never repeatedly
while the distance stays on the fired side.  Polling the fresh trigger
`c6s0` (auto-indexed to 0 on one-element queries) with queries `[1]`,
`[0]`, `[-5]` gives the distance sequence `-1, 0, 5` — a single transition
into positive territory — yet the trigger fires TWICE: at the second poll,
where the new distance 0 is not `> 0`, and again at the third.  (The code
fires whenever the previous distance was `<= 0`, the new one is `>= 0`,
and the two differ.) -/
theorem C6_counterexample :
    (c6s0.call c6ref (.arr [1]) true).1 = false ∧
    ((c6s0.call c6ref (.arr [1]) true).2.call c6ref (.arr [0]) true).1 = true ∧
    (((c6s0.call c6ref (.arr [1]) true).2.call c6ref (.arr [0]) true).2.call
        c6ref (.arr [-5]) true).1 = true ∧
    findNearest 0 [1] = some (0, -1) ∧
    findNearest 0 [0] = some (0, 0) ∧
    findNearest 0 [-5] = some (0, 5) ∧
    ¬ ((0 : ℚ) > 0) := by
  refine ⟨?_, ?_, ?_, ?_, ?_, ?_, by norm_num⟩ <;>
    norm_num [CrossesIndex.call, CrossesIndex.effectiveIndex, BufArg.values,
      c6s0, c6ref, findNearest, List.enum, List.enumFrom]

/-- C6 (amended).  `CrossesIndex.__call__` returns not-triggered whenever
either buffer is empty and never fires on the very first distance
observation; when both buffers are non-empty it fires exactly when the
previously observed distance was `<= 0` and the new nearest distance is
`>= 0` and differs from the previous one — so it can fire at distance 0
and can fire on consecutive polls (e.g. distances -1, 0, 5), rather than
exactly once per transition to strictly positive distance; on every
non-empty poll the stored previous distance becomes the new distance. -/
theorem C6_theorem :
    (∀ (st : CrossesIndex) (ref q : BufArg) (auto : Bool),
      ref.values = [] ∨ q.values = [] → (st.call ref q auto).1 = false) ∧
    (∀ (st : CrossesIndex) (ref q : BufArg) (auto : Bool),
      st.previousDist = none → (st.call ref q auto).1 = false) ∧
    (∀ (st : CrossesIndex) (ref q : BufArg) (auto : Bool) (i : ℕ) (d : ℚ),
      ref.values ≠ [] → q.values ≠ [] →
      findNearest ((st.effectiveIndex ref q auto : ℕ) : ℚ) q.values =
        some (i, d) →
      ((st.call ref q auto).1 = true ↔
        ∃ p, st.previousDist = some p ∧ p ≤ 0 ∧ 0 ≤ d ∧ d ≠ p) ∧
      (st.call ref q auto).2.previousDist = some d) := by
  refine ⟨?_, ?_, ?_⟩
  · intro st ref q auto h
    simp only [CrossesIndex.call]
    rw [if_pos h]
  · intro st ref q auto hprev
    simp only [CrossesIndex.call, hprev]
    by_cases he : ref.values = [] ∨ q.values = []
    · rw [if_pos he]
    · rw [if_neg he]
      cases hf : findNearest ((st.effectiveIndex ref q auto : ℕ) : ℚ) q.values with
      | none => simp [hf]
      | some p =>
          obtain ⟨i, d⟩ := p
          simp only [hf]
          by_cases hd : 0 ≤ d
          · simp only [if_pos hd]
          · simp only [if_neg hd]
  · intro st ref q auto i d href hq hfn
    have hne : ¬ (ref.values = [] ∨ q.values = []) := by simp [href, hq]
    constructor
    · simp only [CrossesIndex.call, if_neg hne, hfn]
      by_cases hd : 0 ≤ d
      · cases hp : st.previousDist with
        | none =>
            simp only [hp, if_pos hd]
            constructor
            · intro hfalse
              exact absurd hfalse (by simp)
            · rintro ⟨p2, hcontra, _⟩
              exact absurd hcontra (by simp)
        | some p =>
            by_cases hcond : p ≤ 0 ∧ d ≠ p
            · simp only [hp, if_pos hd, if_pos hcond, Option.some.injEq]
              constructor
              · intro _
                exact ⟨p, rfl, hcond.1, hd, hcond.2⟩
              · intro _
                trivial
            · simp only [hp, if_pos hd, if_neg hcond, Option.some.injEq]
              constructor
              · intro hfalse
                exact absurd hfalse (by simp)
              · rintro ⟨p2, rfl, h1, _, h3⟩
                exact absurd ⟨h1, h3⟩ hcond
      · simp only [if_neg hd, Option.some.injEq]
        constructor
        · intro hfalse
          exact absurd hfalse (by simp)
        · rintro ⟨p2, _, _, h2, _⟩
          exact absurd h2 hd
    · simp only [CrossesIndex.call, if_neg hne, hfn]
      by_cases hd : 0 ≤ d
      · simp only [if_pos hd]
      · simp only [if_neg hd]

/-- Witness for C6: a trigger whose previous distance is -1, polled on
non-empty buffers with a query whose nearest distance from index 0 is 0,
fires. -/
theorem C6_witness :
    BufArg.values c6ref ≠ [] ∧ BufArg.values (.arr [0]) ≠ [] ∧
    ((⟨0, some (-1)⟩ : CrossesIndex).call c6ref (.arr [0]) true).1 = true := by
  refine ⟨by simp [c6ref, BufArg.values], by simp [BufArg.values], ?_⟩
  have h := (C6_theorem.2.2 ⟨0, some (-1)⟩ c6ref (.arr [0]) true 0 0
    (by simp [c6ref, BufArg.values]) (by simp [BufArg.values])
    (by norm_num [findNearest, CrossesIndex.effectiveIndex, c6ref,
      BufArg.values, List.enum, List.enumFrom])).1
  rw [h]
  exact ⟨-1, rfl, by norm_num, le_refl 0, by norm_num⟩

/-- Witness for C7 at concrete inputs: `output_size=1` is smaller than the
two supplied values, and a single index for two values mismatches. -/
theorem C7_witness :
    (1 < ([1, 2] : List ℚ).length ∧
      ∃ m, interpolate_1d [1, 2] 1 [0, 1] "wrap" = .error m) ∧
    (([1, 2] : List ℚ).length ≤ 5 ∧ ([0] : List ℕ).length ≠ 2 ∧
      ∃ m, interpolate_1d [1, 2] 5 [0] "wrap" = .error m) :=
  ⟨⟨by decide, C7_theorem.2.1 [1, 2] 1 [0, 1] (by decide)⟩,
    ⟨by decide, by decide, C7_theorem.2.2 [1, 2] 5 [0] (by decide) (by decide)⟩⟩

/-- C8.  `MappingArray.update_array` applies the reduction chain only to
`FIFOBuffer` channels that are full — a channel whose buffer is not yet
full is skipped without error and its vector slot is left unchanged — it
writes each full channel's chain result into that channel's vector slot,
and it raises the `TypeError` exactly when some processed channel's final
reduction result is not reducible to a single numeric scalar
(`chanOutcome … = some none`). -/
theorem C8_theorem (st : MappingArray)
    (fns : List ((PyVal → PyVal) × Option ℕ)) (oi : Option ℕ)
    (hpos : st.positions = List.range st.channels.length)
    (harr : st.array.length = st.channels.length) :
    ((∃ m, st.updateArray fns oi = .error m) ↔
      ∃ c ∈ st.channels, chanOutcome fns oi c = some none) ∧
    (∀ b : FIFOBuffer EV,
      chanOutcome fns oi (.fifo b) = none ↔ b.isFull = false) ∧
    (∀ res, st.updateArray fns oi = .ok res →
      res.length = st.array.length ∧
      ∀ i, i < st.channels.length →
        (chanOutcome fns oi (st.channels.getD i (BufferObj.rawND [])) =
            none →
          res.getD i (EV.fin 0) = st.array.getD i (EV.fin 0)) ∧
        (∀ v,
          chanOutcome fns oi (st.channels.getD i (BufferObj.rawND [])) =
              some (some v) →
          res.getD i (EV.fin 0) = v)) := by
  have hrange : List.range st.channels.length =
      List.range' 0 st.channels.length := List.range_eq_range' _
  refine ⟨?_, ?_, ?_⟩
  · rw [MappingArray.updateArray, hpos, hrange,
      updateArrayGo_error_iff (chanOutcome fns oi)]
    exact zip_outcome_mem (chanOutcome fns oi) st.channels 0
  · intro b
    show (if b.isFull then
      some (finalizeReduced oi (runChain fns (.nd b.buffer))) else none) =
        none ↔ b.isFull = false
    by_cases hb : b.isFull
    · rw [if_pos hb]
      simp [hb]
    · rw [if_neg hb]
      simp [hb]
  · intro res h
    rw [MappingArray.updateArray, hpos, hrange] at h
    obtain ⟨hlen, _, hslots⟩ :=
      updateArrayGo_ok_spec (chanOutcome fns oi) (EV.fin 0)
        st.channels 0 st.array res h
    refine ⟨hlen, ?_⟩
    intro i hi
    have hik : 0 + i < st.array.length := by omega
    obtain ⟨hnone, hsome⟩ := hslots i hi hik
    constructor
    · intro hskip
      have := hnone hskip
      simpa using this
    · intro v hv
      have := hsome v hv
      simpa using this

/-- Witness for C8: a mapping array over one full and one warming-up
buffer, with the empty reduction chain; the full channel's contents
collapse to the scalar 3 in slot 0, the warming-up channel leaves slot 1
at its stale 0, and the no-error/error-iff characterization holds. -/
theorem C8_witness :
    c8st.positions = List.range c8st.channels.length ∧
    c8st.array.length = c8st.channels.length ∧
    c8st.updateArray [] none = .ok [.fin 3, .fin 0] ∧
    ((∃ m, c8st.updateArray [] none = .error m) ↔
      ∃ c ∈ c8st.channels, chanOutcome [] none c = some none) := by
  refine ⟨rfl, rfl, rfl, (C8_theorem c8st [] none rfl rfl).1⟩

/-- If some channel lacks a version counter, the change-detection loop of
`update_array_tick(mode="update")` reports a change whatever the stored
last-seen versions are. -/
lemma anyChanged_of_raw (chs : List BufferObj) (lvs : List ℤ)
    (hlen : lvs.length = chs.length) (hraw : ∃ c ∈ chs, c.isRaw = true) :
    anyChanged chs lvs = true := by
  induction chs generalizing lvs with
  | nil =>
      obtain ⟨c, hc, _⟩ := hraw
      exact absurd hc (by simp)
  | cons c rest ih =>
      cases lvs with
      | nil => simp at hlen
      | cons lv lrest =>
          obtain ⟨c2, hc2, hraw2⟩ := hraw
          rcases List.mem_cons.mp hc2 with h1 | h2
          · subst h1
            cases c2 with
            | fifo b => simp [BufferObj.isRaw] at hraw2
            | rawND l => simp [anyChanged]
            | rawList l => simp [anyChanged]
          · have hlen2 : lrest.length = rest.length := by simpa using hlen
            have hrest := ih lrest hlen2 ⟨c2, h2, hraw2⟩
            simp only [anyChanged, List.zip_cons_cons, List.any_cons,
              Bool.or_eq_true] at hrest ⊢
            exact Or.inr hrest

/-- C10.  In "update" mode `MappingArray.update_array_tick` treats a
channel whose buffer object lacks a `_version` attribute (a plain ndarray
or list rather than a `FIFOBuffer`) as always changed: whenever such a
channel is present the change check succeeds for every possible
last-seen-version state, so each call recomputes the array and returns
`True` (propagating the reduction's error if it raises); the channel list
is unchanged by the call, so the same holds on every subsequent call,
regardless of whether any data actually changed. -/
theorem C10_theorem (st : MappingArray)
    (fns : List ((PyVal → PyVal) × Option ℕ)) (oi : Option ℕ)
    (hlen : st.lastUpdateVersions.length = st.channels.length)
    (hraw : ∃ c ∈ st.channels, c.isRaw = true) :
    anyChanged st.channels st.lastUpdateVersions = true ∧
    (∀ arr, st.updateArray fns oi = .ok arr →
      ∃ st2, st.updateArrayTickUpdate fns oi = .ok (true, st2) ∧
        st2.channels = st.channels ∧ st2.updated = true ∧
        st2.lastUpdateVersions.length = st2.channels.length) ∧
    (∀ m, st.updateArray fns oi = .error m →
      st.updateArrayTickUpdate fns oi = .error m) := by
  have hany := anyChanged_of_raw st.channels st.lastUpdateVersions hlen hraw
  refine ⟨hany, ?_, ?_⟩
  · intro arr h
    have hstep : st.updateArrayTickUpdate fns oi = .ok (true,
        { st with array := arr,
                  lastUpdateVersions :=
                    refreshVersions st.channels st.lastUpdateVersions,
                  updated := true }) := by
      simp only [MappingArray.updateArrayTickUpdate]
      rw [if_pos hany, h]
    refine ⟨_, hstep, rfl, rfl, ?_⟩
    simp [refreshVersions, hlen]
  · intro m h
    simp only [MappingArray.updateArrayTickUpdate]
    rw [if_pos hany, h]

/-- Witness for C10: a mapping array whose single channel is a plain
ndarray; the update-mode tick fires and leaves the channel list (and so
the always-fires situation) in place. -/
theorem C10_witness :
    c10st.lastUpdateVersions.length = c10st.channels.length ∧
    (∃ c ∈ c10st.channels, c.isRaw = true) ∧
    ∃ st2, c10st.updateArrayTickUpdate [] none = .ok (true, st2) ∧
      st2.channels = c10st.channels := by
  have h := C10_theorem c10st [] none rfl
    ⟨.rawND [.fin 2], List.mem_cons_self _ _, rfl⟩
  obtain ⟨st2, hst2, hch, _, _⟩ := h.2.1 [.fin 2] rfl
  exact ⟨rfl, ⟨.rawND [.fin 2], List.mem_cons_self _ _, rfl⟩, st2, hst2, hch⟩

/-- Binding an `ok` value applies the continuation. -/
lemma exceptBindOk {α β : Type} (x : α) (f : α → Except String β) :
    (Except.ok x >>= f) = f x := rfl

/-- Binding an `error` short-circuits. -/
lemma exceptBindErr {α β : Type} (m : String) (f : α → Except String β) :
    ((Except.error m : Except String α) >>= f) = Except.error m := rfl

lemma updateIntensities_ok (st : LightingArray) (new : List ℚ)
    (st2 : LightingArray) (hok : st.updateIntensities new = .ok st2) :
    st2 = { st with previousIntensities := st.intensities, intensities := new } ∧
    new.length = st.noLeds := by
  by_cases h : new.length ≠ st.noLeds
  · rw [LightingArray.updateIntensities, if_pos h] at hok
    exact absurd hok (by simp)
  · rw [LightingArray.updateIntensities, if_neg h] at hok
    cases hok
    exact ⟨rfl, not_not.mp h⟩

lemma updateIntensities_ok_iff (st : LightingArray) (new : List ℚ) :
    (∃ st2, st.updateIntensities new = .ok st2) ↔ new.length = st.noLeds := by
  by_cases h : new.length = st.noLeds
  · simp [LightingArray.updateIntensities, h]
  · simp [LightingArray.updateIntensities, h]

lemma updateRed_ok (st : LightingArray) (new : List ℚ)
    (st2 : LightingArray) (hok : st.updateRed new = .ok st2) :
    st2 = { st with previousRed := st.red, red := new } ∧
    new.length = st.noLeds := by
  by_cases h : new.length ≠ st.noLeds
  · rw [LightingArray.updateRed, if_pos h] at hok
    exact absurd hok (by simp)
  · rw [LightingArray.updateRed, if_neg h] at hok
    cases hok
    exact ⟨rfl, not_not.mp h⟩

lemma updateRed_ok_iff (st : LightingArray) (new : List ℚ) :
    (∃ st2, st.updateRed new = .ok st2) ↔ new.length = st.noLeds := by
  by_cases h : new.length = st.noLeds
  · simp [LightingArray.updateRed, h]
  · simp [LightingArray.updateRed, h]

lemma updateGreen_ok (st : LightingArray) (new : List ℚ)
    (st2 : LightingArray) (hok : st.updateGreen new = .ok st2) :
    st2 = { st with previousGreen := st.green, green := new } ∧
    new.length = st.noLeds := by
  by_cases h : new.length ≠ st.noLeds
  · rw [LightingArray.updateGreen, if_pos h] at hok
    exact absurd hok (by simp)
  · rw [LightingArray.updateGreen, if_neg h] at hok
    cases hok
    exact ⟨rfl, not_not.mp h⟩

lemma updateGreen_ok_iff (st : LightingArray) (new : List ℚ) :
    (∃ st2, st.updateGreen new = .ok st2) ↔ new.length = st.noLeds := by
  by_cases h : new.length = st.noLeds
  · simp [LightingArray.updateGreen, h]
  · simp [LightingArray.updateGreen, h]

lemma updateBlue_ok (st : LightingArray) (new : List ℚ)
    (st2 : LightingArray) (hok : st.updateBlue new = .ok st2) :
    st2 = { st with previousBlue := st.blue, blue := new } ∧
    new.length = st.noLeds := by
  by_cases h : new.length ≠ st.noLeds
  · rw [LightingArray.updateBlue, if_pos h] at hok
    exact absurd hok (by simp)
  · rw [LightingArray.updateBlue, if_neg h] at hok
    cases hok
    exact ⟨rfl, not_not.mp h⟩

lemma updateBlue_ok_iff (st : LightingArray) (new : List ℚ) :
    (∃ st2, st.updateBlue new = .ok st2) ↔ new.length = st.noLeds := by
  by_cases h : new.length = st.noLeds
  · simp [LightingArray.updateBlue, h]
  · simp [LightingArray.updateBlue, h]

lemma updateWhite_ok (st : LightingArray) (new : List ℚ)
    (st2 : LightingArray) (hok : st.updateWhite new = .ok st2) :
    st2 = { st with previousWhite := st.white, white := new } ∧
    new.length = st.noLeds := by
  by_cases h : new.length ≠ st.noLeds
  · rw [LightingArray.updateWhite, if_pos h] at hok
    exact absurd hok (by simp)
  · rw [LightingArray.updateWhite, if_neg h] at hok
    cases hok
    exact ⟨rfl, not_not.mp h⟩

lemma updateWhite_ok_iff (st : LightingArray) (new : List ℚ) :
    (∃ st2, st.updateWhite new = .ok st2) ↔ new.length = st.noLeds := by
  by_cases h : new.length = st.noLeds
  · simp [LightingArray.updateWhite, h]
  · simp [LightingArray.updateWhite, h]

lemma updateRed_ok_of_len (st : LightingArray) (new : List ℚ)
    (h : new.length = st.noLeds) :
    st.updateRed new = .ok { st with previousRed := st.red, red := new } := by
  rw [LightingArray.updateRed, if_neg (not_not_intro h)]

lemma updateGreen_ok_of_len (st : LightingArray) (new : List ℚ)
    (h : new.length = st.noLeds) :
    st.updateGreen new =
      .ok { st with previousGreen := st.green, green := new } := by
  rw [LightingArray.updateGreen, if_neg (not_not_intro h)]

lemma updateBlue_ok_of_len (st : LightingArray) (new : List ℚ)
    (h : new.length = st.noLeds) :
    st.updateBlue new =
      .ok { st with previousBlue := st.blue, blue := new } := by
  rw [LightingArray.updateBlue, if_neg (not_not_intro h)]

lemma updateRGB_ok (st : LightingArray) (r g b : List ℚ)
    (st2 : LightingArray) (hok : st.updateRGB r g b = .ok st2) :
    st2 = { st with previousRed := st.red, red := r,
                    previousGreen := st.green, green := g,
                    previousBlue := st.blue, blue := b } ∧
    r.length = st.noLeds ∧ g.length = st.noLeds ∧ b.length = st.noLeds := by
  rw [LightingArray.updateRGB] at hok
  cases hr : st.updateRed r with
  | error m =>
      rw [hr, exceptBindErr] at hok
      exact absurd hok (by simp)
  | ok st1 =>
      rw [hr, exceptBindOk] at hok
      cases hg : st1.updateGreen g with
      | error m =>
          rw [hg, exceptBindErr] at hok
          exact absurd hok (by simp)
      | ok stg =>
          rw [hg, exceptBindOk] at hok
          obtain ⟨h1, hrl⟩ := updateRed_ok st r st1 hr
          obtain ⟨h2, hgl⟩ := updateGreen_ok st1 g stg hg
          obtain ⟨h3, hbl⟩ := updateBlue_ok stg b st2 hok
          subst h1
          subst h2
          subst h3
          exact ⟨rfl, hrl, hgl, hbl⟩

lemma updateRGBW_ok (st : LightingArray) (r g b w : List ℚ)
    (st2 : LightingArray) (hok : st.updateRGBW r g b w = .ok st2) :
    st2 = { st with previousRed := st.red, red := r,
                    previousGreen := st.green, green := g,
                    previousBlue := st.blue, blue := b,
                    previousWhite := st.white, white := w } ∧
    r.length = st.noLeds ∧ g.length = st.noLeds ∧
    b.length = st.noLeds ∧ w.length = st.noLeds := by
  rw [LightingArray.updateRGBW] at hok
  cases hr : st.updateRGB r g b with
  | error m =>
      rw [hr, exceptBindErr] at hok
      exact absurd hok (by simp)
  | ok st1 =>
      rw [hr, exceptBindOk] at hok
      obtain ⟨h1, hrl, hgl, hbl⟩ := updateRGB_ok st r g b st1 hr
      obtain ⟨h2, hwl⟩ := updateWhite_ok st1 w st2 hok
      subst h1
      subst h2
      exact ⟨rfl, hrl, hgl, hbl, hwl⟩

/-- C9.  Every `LightingArray` channel value array (intensities, red,
green, blue, white, and their previous counterparts) has exactly
`len(fixtures)` elements at construction, and each update call first
checks the new array's length against the number of fixtures (raising
`ValueError` exactly on a mismatch), snapshots the prior values of the
channels it names into the corresponding previous arrays before
overwriting them, and leaves every channel it does not name unchanged —
so the length invariant `LAWF` is preserved by every update. -/
theorem C9_theorem :
    (∀ fx : List ℤ, LAWF (mkLightingArray fx)) ∧
    (∀ (st : LightingArray) (new : List ℚ),
      (∃ st2, st.updateIntensities new = .ok st2) ↔
        new.length = st.noLeds) ∧
    (∀ (st : LightingArray) (new : List ℚ),
      (∃ st2, st.updateRed new = .ok st2) ↔ new.length = st.noLeds) ∧
    (∀ (st : LightingArray) (new : List ℚ),
      (∃ st2, st.updateGreen new = .ok st2) ↔ new.length = st.noLeds) ∧
    (∀ (st : LightingArray) (new : List ℚ),
      (∃ st2, st.updateBlue new = .ok st2) ↔ new.length = st.noLeds) ∧
    (∀ (st : LightingArray) (new : List ℚ),
      (∃ st2, st.updateWhite new = .ok st2) ↔ new.length = st.noLeds) ∧
    (∀ (st : LightingArray) (new : List ℚ) (st2 : LightingArray),
      LAWF st → st.updateIntensities new = .ok st2 → LAWF st2 ∧
      st2 = { st with previousIntensities := st.intensities,
                      intensities := new }) ∧
    (∀ (st : LightingArray) (new : List ℚ) (st2 : LightingArray),
      LAWF st → st.updateRed new = .ok st2 → LAWF st2 ∧
      st2 = { st with previousRed := st.red, red := new }) ∧
    (∀ (st : LightingArray) (new : List ℚ) (st2 : LightingArray),
      LAWF st → st.updateGreen new = .ok st2 → LAWF st2 ∧
      st2 = { st with previousGreen := st.green, green := new }) ∧
    (∀ (st : LightingArray) (new : List ℚ) (st2 : LightingArray),
      LAWF st → st.updateBlue new = .ok st2 → LAWF st2 ∧
      st2 = { st with previousBlue := st.blue, blue := new }) ∧
    (∀ (st : LightingArray) (new : List ℚ) (st2 : LightingArray),
      LAWF st → st.updateWhite new = .ok st2 → LAWF st2 ∧
      st2 = { st with previousWhite := st.white, white := new }) ∧
    (∀ (st : LightingArray) (r g b : List ℚ),
      (∃ st2, st.updateRGB r g b = .ok st2) ↔
        (r.length = st.noLeds ∧ g.length = st.noLeds ∧
          b.length = st.noLeds)) ∧
    (∀ (st : LightingArray) (r g b : List ℚ) (st2 : LightingArray),
      LAWF st → st.updateRGB r g b = .ok st2 → LAWF st2 ∧
      st2 = { st with previousRed := st.red, red := r,
                      previousGreen := st.green, green := g,
                      previousBlue := st.blue, blue := b }) ∧
    (∀ (st : LightingArray) (r g b w : List ℚ) (st2 : LightingArray),
      LAWF st → st.updateRGBW r g b w = .ok st2 → LAWF st2 ∧
      st2 = { st with previousRed := st.red, red := r,
                      previousGreen := st.green, green := g,
                      previousBlue := st.blue, blue := b,
                      previousWhite := st.white, white := w }) := by
  refine ⟨?_, updateIntensities_ok_iff, updateRed_ok_iff, updateGreen_ok_iff,
    updateBlue_ok_iff, updateWhite_ok_iff, ?_, ?_, ?_, ?_, ?_, ?_, ?_, ?_⟩
  · intro fx
    simp [LAWF, mkLightingArray, LightingArray.noLeds]
  · intro st new st2 hwf hok
    obtain ⟨rfl, hlen⟩ := updateIntensities_ok st new st2 hok
    obtain ⟨h1, h2, h3, h4, h5, h6, h7, h8, h9, h10⟩ := hwf
    exact ⟨⟨hlen, h1, h3, h4, h5, h6, h7, h8, h9, h10⟩, rfl⟩
  · intro st new st2 hwf hok
    obtain ⟨rfl, hlen⟩ := updateRed_ok st new st2 hok
    obtain ⟨h1, h2, h3, h4, h5, h6, h7, h8, h9, h10⟩ := hwf
    exact ⟨⟨h1, h2, hlen, h3, h5, h6, h7, h8, h9, h10⟩, rfl⟩
  · intro st new st2 hwf hok
    obtain ⟨rfl, hlen⟩ := updateGreen_ok st new st2 hok
    obtain ⟨h1, h2, h3, h4, h5, h6, h7, h8, h9, h10⟩ := hwf
    exact ⟨⟨h1, h2, h3, h4, hlen, h5, h7, h8, h9, h10⟩, rfl⟩
  · intro st new st2 hwf hok
    obtain ⟨rfl, hlen⟩ := updateBlue_ok st new st2 hok
    obtain ⟨h1, h2, h3, h4, h5, h6, h7, h8, h9, h10⟩ := hwf
    exact ⟨⟨h1, h2, h3, h4, h5, h6, hlen, h7, h9, h10⟩, rfl⟩
  · intro st new st2 hwf hok
    obtain ⟨rfl, hlen⟩ := updateWhite_ok st new st2 hok
    obtain ⟨h1, h2, h3, h4, h5, h6, h7, h8, h9, h10⟩ := hwf
    exact ⟨⟨h1, h2, h3, h4, h5, h6, h7, h8, hlen, h9⟩, rfl⟩
  · intro st r g b
    constructor
    · rintro ⟨st2, hok⟩
      obtain ⟨_, hr, hg, hb⟩ := updateRGB_ok st r g b st2 hok
      exact ⟨hr, hg, hb⟩
    · rintro ⟨hr, hg, hb⟩
      have h1 := updateRed_ok_of_len st r hr
      have h2 := updateGreen_ok_of_len
        { st with previousRed := st.red, red := r } g (by exact hg)
      have h3 := updateBlue_ok_of_len
        { st with previousRed := st.red, red := r,
                  previousGreen := st.green, green := g } b (by exact hb)
      refine ⟨{ st with previousRed := st.red, red := r,
                        previousGreen := st.green, green := g,
                        previousBlue := st.blue, blue := b }, ?_⟩
      rw [LightingArray.updateRGB, h1, exceptBindOk, h2, exceptBindOk, h3]
  · intro st r g b st2 hwf hok
    obtain ⟨rfl, hrl, hgl, hbl⟩ := updateRGB_ok st r g b st2 hok
    obtain ⟨h1, h2, h3, h4, h5, h6, h7, h8, h9, h10⟩ := hwf
    exact ⟨⟨h1, h2, hrl, h3, hgl, h5, hbl, h7, h9, h10⟩, rfl⟩
  · intro st r g b w st2 hwf hok
    obtain ⟨rfl, hrl, hgl, hbl, hwl⟩ := updateRGBW_ok st r g b w st2 hok
    obtain ⟨h1, h2, h3, h4, h5, h6, h7, h8, h9, h10⟩ := hwf
    exact ⟨⟨h1, h2, hrl, h3, hgl, h5, hbl, h7, hwl, h9⟩, rfl⟩

/-- Witness for C9: a two-fixture array accepts an RGB update of three
length-2 arrays, preserving the channel-length invariant. -/
theorem C9_witness :
    LAWF (mkLightingArray [1, 2]) ∧
    ∃ st2, (mkLightingArray [1, 2]).updateRGB [1, 0] [0, 1] [0, 0] =
      .ok st2 ∧ LAWF st2 := by
  have hwf := C9_theorem.1 [1, 2]
  have hok : (mkLightingArray [1, 2]).updateRGB [1, 0] [0, 1] [0, 0] =
      .ok { mkLightingArray [1, 2] with
              previousRed := (mkLightingArray [1, 2]).red, red := [1, 0],
              previousGreen := (mkLightingArray [1, 2]).green,
              green := [0, 1],
              previousBlue := (mkLightingArray [1, 2]).blue,
              blue := [0, 0] } := rfl
  obtain ⟨hwf2, _⟩ := C9_theorem.2.2.2.2.2.2.2.2.2.2.2.2.1
    (mkLightingArray [1, 2]) [1, 0] [0, 1] [0, 0] _ hwf hok
  exact ⟨hwf, _, hok, hwf2⟩
